import Mathlib

/-!
Verification of the Ad Segment Detection Engine of the `ad_detector`
repository.

The Python sources are shallowly embedded as follows.

* Frames are an abstract type `F`.  A `cv2.VideoCapture` handle, after
  `cap.set(cv2.CAP_PROP_POS_MSEC, t * 1000)` followed by `cap.read()`, is a
  pure function `cap : ℚ → Option F`: `some frame` models `ret = True` with
  the decoded frame, `none` models `ret = False` (end of stream / seek
  failure).  Timestamps and scores are rationals; no genuine floating-point
  rounding is exercised by the claims (only `+`, `-`, `/`, comparisons on
  values where Python float and exact arithmetic agree on the properties at
  issue, and the division-by-zero behaviour, which is modelled explicitly).
* A loaded torch model applied to the (deterministically) preprocessed
  frame is a pure function `model : F → ℚ × ℚ` giving the two class
  scores of its output row.
* Python exceptions relevant to the claims are modelled with `Except`.
* The cooperative cancellation flag (`worker._is_running`) is modelled as
  always true (an uncancelled run), which is the situation all claims
  describe.
-/

namespace AdDetector

/-- Python runtime errors that the embedded code can raise. -/
inductive PyError where
  | zeroDivisionError : PyError
  | attributeError : PyError
deriving DecidableEq

/-- Embeds `classify_frame` (src/app/frame_classifier.py, lines 18-24).
`model frame` is the 2-class output row of the loaded model on the
preprocessed frame; `torch.max(outputs, 1)` returns the index of the first
maximal entry, so the result is `0` iff the class-0 score is at least the
class-1 score. -/
def classify_frame {F : Type} (model : F → ℚ × ℚ) (frame : F) : ℕ :=
  if (model frame).2 > (model frame).1 then 1 else 0

/-- The `while current_time <= end_time` loop of `process_video_segments`
(src/app/frame_classifier.py, lines 33-46), with accumulators
`total_frames`, `ad_frames`, `frame_count` (`frame_count` is written but
never read by the source; it is carried for faithfulness).  The conjunct
`0 < frame_interval` guards termination; every call site of the source
uses the default interval `0.5`, for which it holds. -/
def process_video_segments.go {F : Type} (cap : ℚ → Option F) (model : F → ℚ × ℚ)
    (end_time frame_interval : ℚ) (current_time : ℚ)
    (total_frames ad_frames frame_count : ℕ) : ℕ × ℕ :=
  if h : 0 < frame_interval ∧ current_time ≤ end_time then
    match cap current_time with
    | none => (total_frames, ad_frames)
    | some frame =>
      process_video_segments.go cap model end_time frame_interval
        (current_time + frame_interval) (total_frames + 1)
        (if classify_frame model frame = 0 then ad_frames + 1 else ad_frames)
        (frame_count + 1)
  else (total_frames, ad_frames)
termination_by (⌊(end_time - current_time) / frame_interval⌋ + 1).toNat
decreasing_by
  have hiv0 : frame_interval ≠ 0 := ne_of_gt h.1
  have key : (end_time - (current_time + frame_interval)) / frame_interval =
      (end_time - current_time) / frame_interval - 1 := by
    field_simp
    ring
  have h1 : (⌊(end_time - (current_time + frame_interval)) / frame_interval⌋ : ℤ) =
      ⌊(end_time - current_time) / frame_interval⌋ - 1 := by
    rw [key, show ((1 : ℚ)) = ((1 : ℤ) : ℚ) from by norm_num, Int.floor_sub_int]
  have h0 : (0 : ℤ) ≤ ⌊(end_time - current_time) / frame_interval⌋ :=
    Int.floor_nonneg.mpr (div_nonneg (by linarith [h.2]) (le_of_lt h.1))
  omega

/-- Embeds `process_video_segments` (src/app/frame_classifier.py, lines
27-50): unweighted ad percentage
`(ad_frames / total_frames) * 100 if total_frames > 0 else 0.0`. -/
def process_video_segments {F : Type} (cap : ℚ → Option F) (model : F → ℚ × ℚ)
    (start_time end_time frame_interval : ℚ) : ℚ :=
  let r := process_video_segments.go cap model end_time frame_interval start_time 0 0 0
  if 0 < r.1 then ((r.2 : ℚ) / (r.1 : ℚ)) * 100 else 0

/-- The loop of `process_video_segments_after_` (src/app/frame_classifier.py,
lines 86-99); the source body is line-for-line identical to the loop of
`process_video_segments`. -/
def process_video_segments_after_.go {F : Type} (cap : ℚ → Option F) (model : F → ℚ × ℚ)
    (end_time frame_interval : ℚ) (current_time : ℚ)
    (total_frames ad_frames frame_count : ℕ) : ℕ × ℕ :=
  if h : 0 < frame_interval ∧ current_time ≤ end_time then
    match cap current_time with
    | none => (total_frames, ad_frames)
    | some frame =>
      process_video_segments_after_.go cap model end_time frame_interval
        (current_time + frame_interval) (total_frames + 1)
        (if classify_frame model frame = 0 then ad_frames + 1 else ad_frames)
        (frame_count + 1)
  else (total_frames, ad_frames)
termination_by (⌊(end_time - current_time) / frame_interval⌋ + 1).toNat
decreasing_by
  have hiv0 : frame_interval ≠ 0 := ne_of_gt h.1
  have key : (end_time - (current_time + frame_interval)) / frame_interval =
      (end_time - current_time) / frame_interval - 1 := by
    field_simp
    ring
  have h1 : (⌊(end_time - (current_time + frame_interval)) / frame_interval⌋ : ℤ) =
      ⌊(end_time - current_time) / frame_interval⌋ - 1 := by
    rw [key, show ((1 : ℚ)) = ((1 : ℤ) : ℚ) from by norm_num, Int.floor_sub_int]
  have h0 : (0 : ℤ) ≤ ⌊(end_time - current_time) / frame_interval⌋ :=
    Int.floor_nonneg.mpr (div_nonneg (by linarith [h.2]) (le_of_lt h.1))
  omega

/-- Embeds `process_video_segments_after_` (src/app/frame_classifier.py,
lines 79-103). -/
def process_video_segments_after_ {F : Type} (cap : ℚ → Option F) (model : F → ℚ × ℚ)
    (start_time end_time frame_interval : ℚ) : ℚ :=
  let r := process_video_segments_after_.go cap model end_time frame_interval start_time 0 0 0
  if 0 < r.1 then ((r.2 : ℚ) / (r.1 : ℚ)) * 100 else 0

/-- The loop of `process_video_segments_weigth` (src/app/frame_classifier.py,
lines 60-73).  `segment_duration = end_time - start_time`; the statement
`frame_position = (current_time - start_time) / segment_duration` raises
`ZeroDivisionError` when `segment_duration` is zero, which the embedding
makes explicit with `Except`. -/
def process_video_segments_weigth.go {F : Type} (cap : ℚ → Option F) (model : F → ℚ × ℚ)
    (start_time end_time frame_interval : ℚ) (current_time : ℚ)
    (total_weight total_weighted_value : ℚ) : Except PyError (ℚ × ℚ) :=
  if h : 0 < frame_interval ∧ current_time ≤ end_time then
    match cap current_time with
    | none => .ok (total_weight, total_weighted_value)
    | some frame =>
      if end_time - start_time = 0 then .error .zeroDivisionError
      else
        process_video_segments_weigth.go cap model start_time end_time frame_interval
          (current_time + frame_interval)
          (total_weight + (current_time - start_time) / (end_time - start_time))
          (if classify_frame model frame = 0 then
            total_weighted_value + (current_time - start_time) / (end_time - start_time)
          else total_weighted_value)
  else .ok (total_weight, total_weighted_value)
termination_by (⌊(end_time - current_time) / frame_interval⌋ + 1).toNat
decreasing_by
  have hiv0 : frame_interval ≠ 0 := ne_of_gt h.1
  have key : (end_time - (current_time + frame_interval)) / frame_interval =
      (end_time - current_time) / frame_interval - 1 := by
    field_simp
    ring
  have h1 : (⌊(end_time - (current_time + frame_interval)) / frame_interval⌋ : ℤ) =
      ⌊(end_time - current_time) / frame_interval⌋ - 1 := by
    rw [key, show ((1 : ℚ)) = ((1 : ℤ) : ℚ) from by norm_num, Int.floor_sub_int]
  have h0 : (0 : ℤ) ≤ ⌊(end_time - current_time) / frame_interval⌋ :=
    Int.floor_nonneg.mpr (div_nonneg (by linarith [h.2]) (le_of_lt h.1))
  omega

/-- Embeds `process_video_segments_weigth` (src/app/frame_classifier.py,
lines 54-77): weighted ad percentage
`(total_weighted_value / total_weight) * 100 if total_weight > 0 else 0.0`. -/
def process_video_segments_weigth {F : Type} (cap : ℚ → Option F) (model : F → ℚ × ℚ)
    (start_time end_time frame_interval : ℚ) : Except PyError ℚ :=
  match process_video_segments_weigth.go cap model start_time end_time frame_interval
      start_time 0 0 with
  | .error err => .error err
  | .ok (tw, twv) => .ok (if 0 < tw then twv / tw * 100 else 0)

/-- The timestamps `current_time, current_time + frame_interval, ...` that a
sampling loop would visit while `current_time ≤ end_time`, independent of
frame availability.  (Specification-side apparatus, not source code.) -/
def gridTimes (end_time frame_interval : ℚ) (current_time : ℚ) : List ℚ :=
  if h : 0 < frame_interval ∧ current_time ≤ end_time then
    current_time :: gridTimes end_time frame_interval (current_time + frame_interval)
  else []
termination_by (⌊(end_time - current_time) / frame_interval⌋ + 1).toNat
decreasing_by
  have hiv0 : frame_interval ≠ 0 := ne_of_gt h.1
  have key : (end_time - (current_time + frame_interval)) / frame_interval =
      (end_time - current_time) / frame_interval - 1 := by
    field_simp
    ring
  have h1 : (⌊(end_time - (current_time + frame_interval)) / frame_interval⌋ : ℤ) =
      ⌊(end_time - current_time) / frame_interval⌋ - 1 := by
    rw [key, show ((1 : ℚ)) = ((1 : ℤ) : ℚ) from by norm_num, Int.floor_sub_int]
  have h0 : (0 : ℤ) ≤ ⌊(end_time - current_time) / frame_interval⌋ :=
    Int.floor_nonneg.mpr (div_nonneg (by linarith [h.2]) (le_of_lt h.1))
  omega

/-- The timestamps a sampling loop actually processes: the longest prefix of
the grid on which the capture returns a frame (the loop breaks at the first
failed read). -/
def visitedFrom {F : Type} (cap : ℚ → Option F) (end_time frame_interval current_time : ℚ) :
    List ℚ :=
  (gridTimes end_time frame_interval current_time).takeWhile (fun u => (cap u).isSome)

/-- The classifier labels of the frames obtained at the given timestamps. -/
def sampleLabels {F : Type} (cap : ℚ → Option F) (model : F → ℚ × ℚ) (ts : List ℚ) : List ℕ :=
  ts.filterMap (fun t => (cap t).map (classify_frame model))

/-- Unweighted score as the specification words it:
`100 * (count of Ad labels) / (count of samples)`, `0.0` if no samples
were obtained. -/
def unweightedScore (labels : List ℕ) : ℚ :=
  if labels.length = 0 then 0
  else 100 * (((labels.countP (fun l => decide (l = 0))) : ℚ) / (labels.length : ℚ))

/-- The weight of a sample: its normalized position inside the range,
`(timestamp - range.start) / (range.end - range.start)`. -/
def sampleWeight (start_time end_time t : ℚ) : ℚ :=
  (t - start_time) / (end_time - start_time)

/-- Sum of the weights of all samples at the given timestamps. -/
def weightSum (start_time end_time : ℚ) (ts : List ℚ) : ℚ :=
  (ts.map (sampleWeight start_time end_time)).sum

/-- Sum of the weights of the Ad-labeled samples at the given timestamps. -/
def adWeightSum {F : Type} (cap : ℚ → Option F) (model : F → ℚ × ℚ)
    (start_time end_time : ℚ) (ts : List ℚ) : ℚ :=
  ((ts.filter (fun u => decide ((cap u).map (classify_frame model) = some 0))).map
    (sampleWeight start_time end_time)).sum

/-- Weighted score as the specification words it:
`100 * (sum of weights of Ad-labeled samples) / (sum of all weights)`,
`0.0` if the weight sum is zero. -/
def weightedScore {F : Type} (cap : ℚ → Option F) (model : F → ℚ × ℚ)
    (start_time end_time : ℚ) (ts : List ℚ) : ℚ :=
  if weightSum start_time end_time ts = 0 then 0
  else 100 * (adWeightSum cap model start_time end_time ts / weightSum start_time end_time ts)

/-- Python `dict` assignment `d[k] = v`: replaces the value of an existing
key in place, otherwise appends the pair (Python dicts preserve insertion
order). -/
def dict_update {α β : Type} [DecidableEq α] (d : List (α × β)) (k : α) (v : β) :
    List (α × β) :=
  if d.any (fun p => decide (p.1 = k)) then
    d.map (fun p => if p.1 = k then (k, v) else p)
  else d ++ [(k, v)]

/-- Python `dict` lookup `d[k]` (as an `Option`; the source only looks up
keys it has inserted). -/
def dict_lookup {α β : Type} [DecidableEq α] (d : List (α × β)) (k : α) : Option β :=
  (d.find? (fun p => decide (p.1 = k))).map Prod.snd

/-- Python `d1.update(d2)`. -/
def dict_merge {α β : Type} [DecidableEq α] (d1 d2 : List (α × β)) : List (α × β) :=
  d2.foldl (fun d p => dict_update d p.1 p.2) d1

/-- Embeds `detect_ad_scenes_from_segments_and_get_all_results`
(src/app/frame_classifier.py, lines 128-133): one
`process_video_segments_after_` score per scene, accumulated into a dict
keyed by the `(start, end)` pair, with the default interval `0.5`. -/
def detect_ad_scenes_from_segments_and_get_all_results {F : Type} (cap : ℚ → Option F)
    (model : F → ℚ × ℚ) (scenes : List (ℚ × ℚ)) : List ((ℚ × ℚ) × ℚ) :=
  scenes.foldl
    (fun d sc => dict_update d sc (process_video_segments_after_ cap model sc.1 sc.2 (1 / 2)))
    []

/-- Embeds the score-collection phase of `VideoAnalyzerApp._analyze_video`
(src/app/gui.py, lines 190-208): one future per scene, each computing
`detect_ad_scenes_from_segments_and_get_all_results` on the singleton list
`[scene]`, merged with `preds.update(future.result())` in submission order
(the merge iterates the futures list, so wall-clock completion order never
influences the accumulated dict). -/
def analyze_video_preds {F : Type} (cap : ℚ → Option F) (model : F → ℚ × ℚ)
    (scenes : List (ℚ × ℚ)) : List ((ℚ × ℚ) × ℚ) :=
  scenes.foldl
    (fun preds sc =>
      dict_merge preds (detect_ad_scenes_from_segments_and_get_all_results cap model [sc]))
    []

/-- Embeds `VideoAnalyzerApp._is_advertisement` (src/app/gui.py, lines
242-250): `adjusted_thresh = base_thresh if is_isolated else
base_thresh - boost; return model_score >= adjusted_thresh`. -/
def is_advertisement (model_score base_thresh boost : ℚ) ( is_isolated : Bool) : Bool :=
  decide (model_score ≥ (if is_isolated then base_thresh else base_thresh - boost))

/-- Embeds the decision loop of `VideoAnalyzerApp._analyze_video`
(src/app/gui.py, lines 213-236): a single forward pass over the scores,
appending `scenes[i]` whenever `_is_advertisement` accepts score `i` with
`is_isolated = not prev_ad and not next_ad`. -/
def analyze_video_decision (scenes : List (ℚ × ℚ)) (scores : List ℚ)
    (base_thresh boost : ℚ) : List (ℚ × ℚ) :=
  (List.range scores.length).filterMap (fun i =>
    let score := scores.getD i 0
    let prev_ad := decide (0 < i) && decide (scores.getD (i - 1) 0 ≥ base_thresh)
    let next_ad := decide (i < scores.length - 1) && decide (scores.getD (i + 1) 0 ≥ base_thresh)
    if is_advertisement score base_thresh boost (!prev_ad && !next_ad) then
      some (scenes.getD i (0, 0))
    else none)

/-- PrevAd exactly as claim C1 words it: `i > 0` and the previous score
meets the base threshold. -/
def specPrevAd (scores : List ℚ) (i : ℕ) (base_thresh : ℚ) : Prop :=
  0 < i ∧ scores.getD (i - 1) 0 ≥ base_thresh

/-- NextAd exactly as claim C1 words it: `i < last` and the next score
meets the base threshold. -/
def specNextAd (scores : List ℚ) (i : ℕ) (base_thresh : ℚ) : Prop :=
  i < scores.length - 1 ∧ scores.getD (i + 1) 0 ≥ base_thresh

/-- A scene is isolated when neither neighbour meets the base threshold
(claim C1 / spec section 4.5). -/
def specIsolated (scores : List ℚ) (i : ℕ) (base_thresh : ℚ) : Prop :=
  ¬ specPrevAd scores i base_thresh ∧ ¬ specNextAd scores i base_thresh

instance (scores : List ℚ) (i : ℕ) (b : ℚ) : Decidable (specPrevAd scores i b) := by
  unfold specPrevAd
  infer_instance

instance (scores : List ℚ) (i : ℕ) (b : ℚ) : Decidable (specNextAd scores i b) := by
  unfold specNextAd
  infer_instance

instance (scores : List ℚ) (i : ℕ) (b : ℚ) : Decidable ( specIsolated scores i b) := by
  unfold specIsolated
  infer_instance

/-- The effective threshold, exactly as claim C1 words it: the base
threshold if the scene is isolated, and the base threshold minus the boost
otherwise. -/
def specEffectiveThreshold (scores : List ℚ) (i : ℕ) (base_thresh boost : ℚ) : ℚ :=
  if specIsolated scores i base_thresh then base_thresh else base_thresh - boost

/-- The one registered model name of `AVAILABLE_MODELS`
(src/app/model_loader.py, lines 9-11). -/
def swinName : String := "Swin"

/-- The checkpoint path registered for it. -/
def swinPath : String := "../models/ad_classifier_swin.pth"

/-- Embeds `AVAILABLE_MODELS` (src/app/model_loader.py, lines 9-11). -/
def AVAILABLE_MODELS : List (String × String) := [(swinName, swinPath)]

/-- The effectful collaborators of `load_model`: the `PRELOADED_MODELS`
cache, `timm.create_model` (which never returns `None`), and the
`torch.load` / `load_state_dict` / `to(device)` / `eval` sequence of the
`try` block, whose failure is caught by the source (`none` models a caught
exception). -/
structure ModelEnv (M : Type) where
  preloaded : List (String × M)
  create_model : M
  load_state : String → M → Option M

/-- Embeds `load_model` (src/app/model_loader.py, lines 21-45).  The value
is `ok (some m)` for a usable model, `ok none` for the source's handled
failure path (`return None`), and `error` for an uncaught exception.  When
`AVAILABLE_MODELS.get(model_name)` returns `None`, line 27 of the source
(building the zip path by calling the replace method of `model_path`)
raises `AttributeError` on `None` before any handled branch is reached.  The zip-extraction step
and the write into the `PRELOADED_MODELS` cache do not affect the value
returned by the call and are not modelled. -/
def load_model {M : Type} (env : ModelEnv M) (model_name : String) :
    Except PyError (Option M) :=
  match dict_lookup env.preloaded model_name with
  | some m => .ok (some m)
  | none =>
    match dict_lookup AVAILABLE_MODELS model_name with
    | none => .error .attributeError
    | some model_path =>
      let model := env.create_model
      if model_path ≠ "" then
        match env.load_state model_path model with
        | some loaded => .ok (some loaded)
        | none => .ok none
      else .ok none

/-- A model name absent from `AVAILABLE_MODELS`, used to exercise the
missing-model path of `load_model`. -/
def unknownModelName : String := "ResNet"

/-! ### Helper lemmas: the sampling loops versus the declarative sample lists -/

/-- A loop iteration that reads a frame extends the visited prefix. -/
lemma visitedFrom_cons {F : Type} (cap : ℚ → Option F) (e iv t : ℚ)
    (h : 0 < iv ∧ t ≤ e) {f : F} (hfr : cap t = some f) :
    visitedFrom cap e iv t = t :: visitedFrom cap e iv (t + iv) := by
  unfold visitedFrom
  rw [gridTimes, dif_pos h, List.takeWhile_cons]
  simp [hfr]

/-- A failed read at an in-range timestamp leaves nothing visited. -/
lemma visitedFrom_nil_none {F : Type} (cap : ℚ → Option F) (e iv t : ℚ)
    (h : 0 < iv ∧ t ≤ e) (hfr : cap t = none) :
    visitedFrom cap e iv t = [] := by
  unfold visitedFrom
  rw [gridTimes, dif_pos h, List.takeWhile_cons]
  simp [hfr]

/-- Past the end of the range nothing is visited. -/
lemma visitedFrom_nil_stop {F : Type} (cap : ℚ → Option F) (e iv t : ℚ)
    (h : ¬(0 < iv ∧ t ≤ e)) :
    visitedFrom cap e iv t = [] := by
  unfold visitedFrom
  rw [gridTimes, dif_neg h]
  rfl

/-- The unweighted loop computes exactly the size of the visited prefix and
the number of Ad labels among its samples, on top of its accumulators. -/
lemma process_video_segments_go_spec {F : Type} (cap : ℚ → Option F) (model : F → ℚ × ℚ)
    (e iv : ℚ) :
    ∀ (t : ℚ) (tf af fc : ℕ),
      process_video_segments.go cap model e iv t tf af fc =
        (tf + (visitedFrom cap e iv t).length,
         af + (sampleLabels cap model (visitedFrom cap e iv t)).countP
           (fun l => decide (l = 0))) := by
  intro t tf af fc
  induction t, tf, af, fc using process_video_segments.go.induct cap model e iv with
  | case1 t tf af fc h hnone =>
    rw [process_video_segments.go, dif_pos h, hnone,
      visitedFrom_nil_none cap e iv t h hnone]
    simp [sampleLabels]
  | case2 t tf af fc h frame hfr ih =>
    rw [process_video_segments.go, dif_pos h, hfr]
    dsimp only
    simp only [dite_eq_ite] at ih
    rw [ih, visitedFrom_cons cap e iv t h hfr]
    unfold sampleLabels
    simp only [List.length_cons, List.filterMap_cons, hfr, Option.map_some', List.countP_cons]
    rw [Prod.mk.injEq]
    refine ⟨by omega, ?_⟩
    by_cases hc : classify_frame model frame = 0
    · simp [hc]
      omega
    · simp [hc]
  | case3 t tf af fc h =>
    rw [process_video_segments.go, dif_neg h, visitedFrom_nil_stop cap e iv t h]
    simp [sampleLabels]

/-- The loop of `process_video_segments_after_` is the loop of
`process_video_segments` (their source bodies are identical). -/
lemma process_video_segments_after_go_eq {F : Type} (cap : ℚ → Option F) (model : F → ℚ × ℚ)
    (e iv : ℚ) :
    ∀ (t : ℚ) (tf af fc : ℕ),
      process_video_segments_after_.go cap model e iv t tf af fc =
        process_video_segments.go cap model e iv t tf af fc := by
  intro t tf af fc
  induction t, tf, af, fc using process_video_segments_after_.go.induct cap model e iv with
  | case1 t tf af fc h hnone =>
    rw [process_video_segments_after_.go, dif_pos h, hnone,
      process_video_segments.go, dif_pos h, hnone]
  | case2 t tf af fc h frame hfr ih =>
    rw [process_video_segments_after_.go, dif_pos h, hfr,
      process_video_segments.go, dif_pos h, hfr]
    dsimp only
    simp only [dite_eq_ite] at ih
    rw [ih]
  | case3 t tf af fc h =>
    rw [process_video_segments_after_.go, dif_neg h, process_video_segments.go, dif_neg h]

/-- On a list of timestamps at which every read succeeds, there is one label
per timestamp. -/
lemma sampleLabels_length {F : Type} (cap : ℚ → Option F) (model : F → ℚ × ℚ) :
    ∀ ts : List ℚ, (∀ u ∈ ts, (cap u).isSome) →
      (sampleLabels cap model ts).length = ts.length := by
  intro ts
  induction ts with
  | nil => intro _; rfl
  | cons a l ih =>
    intro hall
    obtain ⟨f, hf⟩ := Option.isSome_iff_exists.mp (hall a (by simp))
    unfold sampleLabels
    simp only [List.filterMap_cons, hf, Option.map_some', List.length_cons]
    rw [show List.filterMap (fun t => (cap t).map (classify_frame model)) l =
      sampleLabels cap model l from rfl]
    rw [ih (fun u hu => hall u (by simp [hu]))]

/-- Lemma: `process_video_segments` equals the specification's unweighted score of
the samples actually obtained. -/
lemma process_video_segments_eq_score {F : Type} (cap : ℚ → Option F) (model : F → ℚ × ℚ)
    (s e iv : ℚ) :
    process_video_segments cap model s e iv =
      unweightedScore (sampleLabels cap model (visitedFrom cap e iv s)) := by
  have hmem : ∀ u ∈ visitedFrom cap e iv s, (cap u).isSome := by
    intro u hu
    unfold visitedFrom at hu
    simpa using List.mem_takeWhile_imp hu
  have hlen : (sampleLabels cap model (visitedFrom cap e iv s)).length =
      (visitedFrom cap e iv s).length :=
    sampleLabels_length cap model _ hmem
  unfold process_video_segments unweightedScore
  rw [process_video_segments_go_spec]
  simp only [Nat.zero_add, hlen]
  rcases Nat.eq_zero_or_pos (visitedFrom cap e iv s).length with h0 | hpos
  · simp [h0]
  · rw [if_pos hpos, if_neg (by omega)]
    ring

/-- Same for `process_video_segments_after_`. -/
lemma process_video_segments_after_eq_score {F : Type} (cap : ℚ → Option F)
    (model : F → ℚ × ℚ) (s e iv : ℚ) :
    process_video_segments_after_ cap model s e iv =
      unweightedScore (sampleLabels cap model (visitedFrom cap e iv s)) := by
  unfold process_video_segments_after_
  rw [process_video_segments_after_go_eq]
  rw [show (let r := process_video_segments.go cap model e iv s 0 0 0;
      if 0 < r.1 then ((r.2 : ℚ) / (r.1 : ℚ)) * 100 else 0) =
      process_video_segments cap model s e iv from rfl]
  exact process_video_segments_eq_score cap model s e iv

/-- The weighted loop, on a non-degenerate range, never raises and computes
the weight sums of the visited prefix on top of its accumulators. -/
lemma process_video_segments_weigth_go_spec {F : Type} (cap : ℚ → Option F)
    (model : F → ℚ × ℚ) (s e iv : ℚ) (hne : e - s ≠ 0) :
    ∀ (t tw twv : ℚ),
      process_video_segments_weigth.go cap model s e iv t tw twv =
        .ok (tw + weightSum s e (visitedFrom cap e iv t),
             twv + adWeightSum cap model s e (visitedFrom cap e iv t)) := by
  intro t tw twv
  induction t, tw, twv using process_video_segments_weigth.go.induct cap model s e iv with
  | case1 t tw twv h hnone =>
    rw [process_video_segments_weigth.go, dif_pos h, hnone,
      visitedFrom_nil_none cap e iv t h hnone]
    simp [weightSum, adWeightSum]
  | case2 t tw twv h frame hfr hzero =>
    exact absurd hzero hne
  | case3 t tw twv h frame hfr hzero ih =>
    rw [process_video_segments_weigth.go, dif_pos h, hfr]
    dsimp only
    rw [if_neg hzero]
    simp only [dite_eq_ite] at ih
    rw [ih, visitedFrom_cons cap e iv t h hfr]
    unfold weightSum adWeightSum
    simp only [List.map_cons, List.sum_cons, List.filter_cons, hfr, Option.map_some']
    rw [Except.ok.injEq, Prod.mk.injEq]
    constructor
    · simp only [sampleWeight]
      rw [show List.map (sampleWeight s e) (visitedFrom cap e iv (t + iv)) =
        (visitedFrom cap e iv (t + iv)).map (sampleWeight s e) from rfl]
      ring
    · by_cases hc : classify_frame model frame = 0
      · rw [if_pos hc,
          if_pos (show decide (some (classify_frame model frame) = some 0) = true by
            simp [hc]),
          List.map_cons, List.sum_cons]
        simp only [sampleWeight]
        ring
      · rw [if_neg hc,
          if_neg (show ¬decide (some (classify_frame model frame) = some 0) = true by
            simp [hc])]
  | case4 t tw twv h =>
    rw [process_video_segments_weigth.go, dif_neg h, visitedFrom_nil_stop cap e iv t h]
    simp [weightSum, adWeightSum]

/-- The weighted loop on a degenerate range (`end_time = start_time`) raises
`ZeroDivisionError` as soon as any frame is read, and otherwise returns its
accumulators untouched. -/
lemma process_video_segments_weigth_go_degenerate {F : Type} (cap : ℚ → Option F)
    (model : F → ℚ × ℚ) (s e iv : ℚ) (heq : e - s = 0) :
    ∀ (t tw twv : ℚ),
      process_video_segments_weigth.go cap model s e iv t tw twv =
        if visitedFrom cap e iv t = [] then .ok (tw, twv) else .error .zeroDivisionError := by
  intro t tw twv
  induction t, tw, twv using process_video_segments_weigth.go.induct cap model s e iv with
  | case1 t tw twv h hnone =>
    rw [process_video_segments_weigth.go, dif_pos h, hnone,
      visitedFrom_nil_none cap e iv t h hnone, if_pos rfl]
  | case2 t tw twv h frame hfr hzero =>
    rw [process_video_segments_weigth.go, dif_pos h, hfr]
    dsimp only
    rw [if_pos hzero, visitedFrom_cons cap e iv t h hfr,
      if_neg (List.cons_ne_nil t (visitedFrom cap e iv (t + iv)))]
  | case3 t tw twv h frame hfr hzero ih =>
    exact absurd heq hzero
  | case4 t tw twv h =>
    rw [process_video_segments_weigth.go, dif_neg h, visitedFrom_nil_stop cap e iv t h,
      if_pos rfl]

/-- Every grid timestamp lies between the loop's starting time and the range
end. -/
lemma gridTimes_bounds (e iv : ℚ) :
    ∀ (t : ℚ), ∀ u ∈ gridTimes e iv t, t ≤ u ∧ u ≤ e := by
  intro t
  induction t using gridTimes.induct e iv with
  | case1 t h ih =>
    intro u hu
    rw [gridTimes, dif_pos h] at hu
    rcases List.mem_cons.mp hu with rfl | hu'
    · exact ⟨le_refl u, h.2⟩
    · have := ih u hu'
      constructor
      · linarith [h.1]
      · exact this.2
  | case2 t h =>
    intro u hu
    rw [gridTimes, dif_neg h] at hu
    cases hu

/-- Visited timestamps are grid timestamps. -/
lemma visitedFrom_bounds {F : Type} (cap : ℚ → Option F) (e iv : ℚ) (t : ℚ) :
    ∀ u ∈ visitedFrom cap e iv t, t ≤ u ∧ u ≤ e := by
  intro u hu
  exact gridTimes_bounds e iv t u ((List.takeWhile_sublist _).subset hu)

/-- Sample weights are nonnegative on timestamps at or after the range
start, when the range is ordered. -/
lemma weightSum_nonneg (s e : ℚ) (hse : s ≤ e) :
    ∀ ts : List ℚ, (∀ u ∈ ts, s ≤ u) → 0 ≤ weightSum s e ts := by
  intro ts hall
  unfold weightSum
  apply List.sum_nonneg
  intro x hx
  obtain ⟨u, hu, rfl⟩ := List.mem_map.mp hx
  unfold sampleWeight
  exact div_nonneg (by linarith [hall u hu]) (by linarith)

/-- On a non-degenerate range, `process_video_segments_weigth` succeeds and
returns the specification's weighted score of the samples actually
obtained. -/
lemma process_video_segments_weigth_eq_score {F : Type} (cap : ℚ → Option F)
    (model : F → ℚ × ℚ) (s e iv : ℚ) (hne : e - s ≠ 0) :
    process_video_segments_weigth cap model s e iv =
      .ok (weightedScore cap model s e (visitedFrom cap e iv s)) := by
  unfold process_video_segments_weigth
  rw [process_video_segments_weigth_go_spec cap model s e iv hne]
  dsimp only
  simp only [zero_add]
  unfold weightedScore
  rcases eq_or_ne (weightSum s e (visitedFrom cap e iv s)) 0 with h0 | h0
  · rw [h0, if_pos rfl, if_neg (lt_irrefl 0)]
  · rw [if_neg h0]
    have hlt : s < e := by
      rcases lt_trichotomy s e with h | h | h
      · exact h
      · exact absurd (by rw [h]; ring) hne
      · exfalso
        apply h0
        rw [visitedFrom_nil_stop cap e iv s (fun hc => absurd hc.2 (not_le.mpr h))]
        simp [weightSum]
    have hnn : 0 ≤ weightSum s e (visitedFrom cap e iv s) :=
      weightSum_nonneg s e (le_of_lt hlt) _ (fun u hu => (visitedFrom_bounds cap e iv s u hu).1)
    rw [if_pos (lt_of_le_of_ne hnn (Ne.symm h0))]
    ring

/-- The grid visited from `t` is exactly the arithmetic progression
`t, t + iv, t + 2iv, ...` cut off strictly past `e`. -/
lemma mem_gridTimes (e iv : ℚ) (hiv : 0 < iv) :
    ∀ (t x : ℚ), x ∈ gridTimes e iv t ↔ ∃ k : ℕ, x = t + k * iv ∧ x ≤ e := by
  intro t
  induction t using gridTimes.induct e iv with
  | case1 t h ih =>
    intro x
    rw [gridTimes, dif_pos h, List.mem_cons, ih x]
    constructor
    · rintro (rfl | ⟨k, rfl, hxe⟩)
      · exact ⟨0, by push_cast; ring, h.2⟩
      · exact ⟨k + 1, by push_cast; ring, hxe⟩
    · rintro ⟨k, rfl, hxe⟩
      cases k with
      | zero => left; push_cast; ring
      | succ k =>
        right
        exact ⟨k, by push_cast; ring, hxe⟩
  | case2 t h =>
    intro x
    rw [gridTimes, dif_neg h]
    constructor
    · intro hx
      exact absurd hx (List.not_mem_nil x)
    · rintro ⟨k, rfl, hxe⟩
      exfalso
      have hte : ¬ t ≤ e := fun hte => h ⟨hiv, hte⟩
      push_neg at hte
      have hk : (0 : ℚ) ≤ (k : ℚ) * iv := mul_nonneg (Nat.cast_nonneg k) (le_of_lt hiv)
      linarith

/-- Two captures that agree on every timestamp from `t` onward drive the
weighted loop identically. -/
lemma process_video_segments_weigth_go_congr {F : Type} (cap1 cap2 : ℚ → Option F)
    (model : F → ℚ × ℚ) (s e iv : ℚ) :
    ∀ (t tw twv : ℚ), (∀ u : ℚ, t ≤ u → cap1 u = cap2 u) →
      process_video_segments_weigth.go cap1 model s e iv t tw twv =
        process_video_segments_weigth.go cap2 model s e iv t tw twv := by
  intro t tw twv
  induction t, tw, twv using process_video_segments_weigth.go.induct cap1 model s e iv with
  | case1 t tw twv h hnone =>
    intro hagree
    have h2 : cap2 t = none := by rw [← hagree t (le_refl t)]; exact hnone
    rw [process_video_segments_weigth.go, dif_pos h, hnone]
    rw [process_video_segments_weigth.go, dif_pos h, h2]
  | case2 t tw twv h frame hfr hzero =>
    intro hagree
    have h2 : cap2 t = some frame := by rw [← hagree t (le_refl t)]; exact hfr
    rw [process_video_segments_weigth.go, dif_pos h, hfr]
    rw [process_video_segments_weigth.go, dif_pos h, h2]
    dsimp only
    rw [if_pos hzero, if_pos hzero]
  | case3 t tw twv h frame hfr hzero ih =>
    intro hagree
    have h2 : cap2 t = some frame := by rw [← hagree t (le_refl t)]; exact hfr
    rw [process_video_segments_weigth.go, dif_pos h, hfr]
    rw [process_video_segments_weigth.go, dif_pos h, h2]
    dsimp only
    rw [if_neg hzero, if_neg hzero]
    exact ih (fun u hu => hagree u (by linarith [h.1]))
  | case4 t tw twv h =>
    intro _
    rw [process_video_segments_weigth.go, dif_neg h]
    rw [process_video_segments_weigth.go, dif_neg h]

/-- One scene scored alone yields the singleton dict for that scene. -/
lemma detect_singleton {F : Type} (cap : ℚ → Option F) (model : F → ℚ × ℚ) (sc : ℚ × ℚ) :
    detect_ad_scenes_from_segments_and_get_all_results cap model [sc] =
      [(sc, process_video_segments_after_ cap model sc.1 sc.2 (1 / 2))] := by
  unfold detect_ad_scenes_from_segments_and_get_all_results
  simp [dict_update]

/-- Submitting one singleton task per scene and merging the per-future dicts is
the same as scoring the scene list in one pass. -/
lemma analyze_video_preds_eq {F : Type} (cap : ℚ → Option F) (model : F → ℚ × ℚ)
    (scenes : List (ℚ × ℚ)) :
    analyze_video_preds cap model scenes =
      detect_ad_scenes_from_segments_and_get_all_results cap model scenes := by
  unfold analyze_video_preds detect_ad_scenes_from_segments_and_get_all_results
  congr 1

/-- Folding keyed inserts of pairwise-distinct fresh keys appends one entry
per key, in order. -/
lemma foldl_dict_update_eq_map {α β : Type} [DecidableEq α] (f : α → β) :
    ∀ (l : List α) (acc : List (α × β)), l.Nodup → (∀ a ∈ l, ∀ p ∈ acc, p.1 ≠ a) →
      l.foldl (fun d a => dict_update d a (f a)) acc = acc ++ l.map (fun a => (a, f a)) := by
  intro l
  induction l with
  | nil =>
    intro acc _ _
    simp
  | cons a l ih =>
    intro acc hnd hacc
    rw [List.foldl_cons]
    have hany : acc.any (fun p => decide (p.1 = a)) = false := by
      rw [List.any_eq_false]
      intro p hp
      simp [hacc a (by simp) p hp]
    have hupd : dict_update acc a (f a) = acc ++ [(a, f a)] := by
      unfold dict_update
      simp [hany]
    rw [hupd, ih (acc ++ [(a, f a)]) (List.nodup_cons.mp hnd).2 ?fresh]
    · simp
    case fresh =>
      intro b hb p hp
      rcases List.mem_append.mp hp with hp' | hp'
      · exact hacc b (by simp [hb]) p hp'
      · have : p = (a, f a) := by simpa using hp'
        rw [this]
        intro hba
        have hab : a = b := hba
        apply (List.nodup_cons.mp hnd).1
        rw [hab]
        exact hb

/-- Lookup in an association list built from distinct keys. -/
lemma dict_lookup_map {α β : Type} [DecidableEq α] (f : α → β) :
    ∀ l : List α, l.Nodup → ∀ k ∈ l,
      dict_lookup (l.map (fun a => (a, f a))) k = some (f k) := by
  intro l
  induction l with
  | nil =>
    intro _ k hk
    cases hk
  | cons a l ih =>
    intro hnd k hk
    unfold dict_lookup
    rw [List.map_cons, List.find?_cons]
    rcases List.mem_cons.mp hk with rfl | hk'
    · simp
    · have hne : a ≠ k := fun h => (List.nodup_cons.mp hnd).1 (h ▸ hk')
      have hd : decide ((a, f a).1 = k) = false := by simp [hne]
      rw [hd]
      have := ih (List.nodup_cons.mp hnd).2 k hk'
      unfold dict_lookup at this
      exact this

/-- The Boolean isolation test of the decision loop decides `specIsolated`. -/
lemma isolated_bool_iff (scores : List ℚ) (i : ℕ) (base : ℚ) :
    ((!(decide (0 < i) && decide (scores.getD (i - 1) 0 ≥ base)) &&
      !(decide (i < scores.length - 1) && decide (scores.getD (i + 1) 0 ≥ base))) = true) ↔
      specIsolated scores i base := by
  unfold specIsolated specPrevAd specNextAd
  simp only [← Bool.decide_and, ← decide_not, decide_eq_true_eq]

/-- Per-index agreement of the decision loop body with the claim's
effective-threshold formulation. -/
lemma analyze_video_decision_pointwise (scenes : List (ℚ × ℚ)) (scores : List ℚ)
    (base boost : ℚ) (i : ℕ) :
    (if is_advertisement (scores.getD i 0) base boost
        (!(decide (0 < i) && decide (scores.getD (i - 1) 0 ≥ base)) &&
         !(decide (i < scores.length - 1) && decide (scores.getD (i + 1) 0 ≥ base))) then
      some (scenes.getD i (0, 0)) else none) =
    (if scores.getD i 0 ≥ specEffectiveThreshold scores i base boost then
      some (scenes.getD i (0, 0)) else none) := by
  unfold is_advertisement specEffectiveThreshold
  by_cases hiso : specIsolated scores i base
  · rw [if_pos hiso, (isolated_bool_iff scores i base).mpr hiso]
    simp only [if_true, decide_eq_true_eq]
  · have hb : (!(decide (0 < i) && decide (scores.getD (i - 1) 0 ≥ base)) &&
        !(decide (i < scores.length - 1) && decide (scores.getD (i + 1) 0 ≥ base))) = false := by
      rcases Bool.eq_false_or_eq_true (!(decide (0 < i) &&
          decide (scores.getD (i - 1) 0 ≥ base)) &&
          !(decide (i < scores.length - 1) && decide (scores.getD (i + 1) 0 ≥ base))) with h | h
      · exact absurd ((isolated_bool_iff scores i base).mp h) hiso
      · exact h
    rw [if_neg hiso, hb]
    simp only [Bool.false_eq_true, if_false, decide_eq_true_eq]

/-! ### Claim theorems -/

/-- C1: with baseThreshold 12.5 and boost 10.0, the decision stage
classifies scene `i` as an ad exactly when `s[i] >= effectiveThreshold`,
where the effective threshold is the base threshold if scene `i` is
isolated and `baseThreshold - boost` otherwise, in a single forward pass;
the returned ad range list is exactly the subsequence of scenes so
classified, in original order. -/
theorem C1_decision_rule (scenes : List (ℚ × ℚ)) (scores : List ℚ)
    (h : scores.length = scenes.length) :
    analyze_video_decision scenes scores (25 / 2) 10 =
      (List.range scores.length).filterMap (fun i =>
        if scores.getD i 0 ≥ specEffectiveThreshold scores i (25 / 2) 10 then
          some (scenes.getD i (0, 0)) else none) := by
  unfold analyze_video_decision
  apply List.filterMap_congr
  intro i _
  exact analyze_video_decision_pointwise scenes scores (25 / 2) 10 i

/-- C1 witness: the decision rule applied to the specification's hysteresis
example, scores `[20, 13, 5]` over three scenes. -/
theorem C1_decision_rule_witness :
    analyze_video_decision [((0 : ℚ), (10 : ℚ)), (10, 20), (20, 30)] [20, 13, 5] (25 / 2) 10 =
      (List.range ([20, 13, 5] : List ℚ).length).filterMap (fun i =>
        if ([20, 13, 5] : List ℚ).getD i 0 ≥
            specEffectiveThreshold [20, 13, 5] i (25 / 2) 10 then
          some ([((0 : ℚ), (10 : ℚ)), (10, 20), (20, 30)].getD i ((0 : ℚ), (0 : ℚ)))
        else none) :=
  C1_decision_rule [((0 : ℚ), (10 : ℚ)), (10, 20), (20, 30)] [20, 13, 5] rfl

/-- C2: on the degenerate range `[0, 0]` of a video with a readable frame at
`t = 0`, the weighted scorer divides by `segment_duration = 0` while
computing the sample weight and raises `ZeroDivisionError`, instead of the
claimed `0.0`. -/
theorem C2_degenerate_range_divides_by_zero :
    process_video_segments_weigth (fun _ : ℚ => some ()) (fun _ : Unit => ((1 : ℚ), (0 : ℚ)))
      0 0 (1 / 2) = .error .zeroDivisionError := by
  unfold process_video_segments_weigth
  rw [process_video_segments_weigth_go_degenerate (fun _ : ℚ => some ())
    (fun _ : Unit => ((1 : ℚ), (0 : ℚ))) 0 0 (1 / 2) (by norm_num) 0 0 0]
  rw [if_neg (show ¬visitedFrom (fun _ : ℚ => some ()) 0 (1 / 2) 0 = [] from by
    rw [visitedFrom_cons (fun _ : ℚ => some ()) 0 (1 / 2) 0 ⟨by norm_num, le_refl 0⟩ rfl]
    exact List.cons_ne_nil _ _)]

/-- C3: both unweighted scoring variants return the specification's
unweighted score (100 times the Ad-labeled fraction) of the samples
actually obtained, and that score is 0 when no sample was obtained. -/
theorem C3_unweighted_score {F : Type} (cap : ℚ → Option F) (model : F → ℚ × ℚ)
    (s e iv : ℚ) :
    process_video_segments cap model s e iv =
      unweightedScore (sampleLabels cap model (visitedFrom cap e iv s)) ∧
    process_video_segments_after_ cap model s e iv =
      unweightedScore (sampleLabels cap model (visitedFrom cap e iv s)) ∧
    unweightedScore [] = 0 :=
  ⟨process_video_segments_eq_score cap model s e iv,
   process_video_segments_after_eq_score cap model s e iv, rfl⟩

/-- C4 counterexample: scene `[0, 3/10]` of a video whose every frame is
readable and classified Ad: the only sample falls at `t = 0` with weight 0,
the weight sum is 0, and the code returns `0.0`, not the claimed `100.0`. -/
theorem C4_counterexample :
    process_video_segments_weigth (fun _ : ℚ => some ()) (fun _ : Unit => ((1 : ℚ), (0 : ℚ)))
        0 (3 / 10) (1 / 2) = .ok 0 ∧
    classify_frame (fun _ : Unit => ((1 : ℚ), (0 : ℚ))) () = 0 ∧
    (Except.ok (0 : ℚ) : Except PyError ℚ) ≠ .ok 100 := by
  refine ⟨?_, by norm_num [classify_frame], by simp⟩
  rw [process_video_segments_weigth_eq_score (fun _ : ℚ => some ())
    (fun _ : Unit => ((1 : ℚ), (0 : ℚ))) 0 (3 / 10) (1 / 2) (by norm_num)]
  have hvis : visitedFrom (fun _ : ℚ => some ()) (3 / 10) (1 / 2) 0 = [0] := by
    rw [visitedFrom_cons (fun _ : ℚ => some ()) (3 / 10) (1 / 2) 0
      ⟨by norm_num, by norm_num⟩ rfl]
    rw [visitedFrom_nil_stop (fun _ : ℚ => some ()) (3 / 10) (1 / 2) (0 + 1 / 2)
      (by rintro ⟨hx, hc⟩; norm_num at hc)]
  rw [hvis]
  norm_num [weightedScore, weightSum, adWeightSum, sampleWeight]

/-- C4 (amended): for a non-degenerate scene, if a sample is obtained
strictly after the scene start (so the weight sum is positive) and every
frame classifies as Ad, the weighted score is exactly 100; and if every
frame classifies as Content, the weighted score is exactly 0. -/
theorem C4_amended {F : Type} (cap : ℚ → Option F) (modelAd modelCo : F → ℚ × ℚ)
    (s e iv : ℚ) (hiv : 0 < iv) (hse : s < e)
    (hAd : ∀ f : F, classify_frame modelAd f = 0)
    (hCo : ∀ f : F, classify_frame modelCo f = 1)
    (hr0 : (cap s).isSome) (hr1 : (cap (s + iv)).isSome) (he : s + iv ≤ e) :
    process_video_segments_weigth cap modelAd s e iv = .ok 100 ∧
    process_video_segments_weigth cap modelCo s e iv = .ok 0 := by
  have hne : e - s ≠ 0 := sub_ne_zero.mpr (Ne.symm (ne_of_lt hse))
  obtain ⟨f0, hf0⟩ := Option.isSome_iff_exists.mp hr0
  obtain ⟨f1, hf1⟩ := Option.isSome_iff_exists.mp hr1
  have hvis : visitedFrom cap e iv s = s :: visitedFrom cap e iv (s + iv) :=
    visitedFrom_cons cap e iv s ⟨hiv, le_of_lt hse⟩ hf0
  have hvis1 : visitedFrom cap e iv (s + iv) =
      (s + iv) :: visitedFrom cap e iv (s + iv + iv) :=
    visitedFrom_cons cap e iv (s + iv) ⟨hiv, he⟩ hf1
  have hwpos : 0 < weightSum s e (visitedFrom cap e iv s) := by
    rw [hvis, hvis1]
    unfold weightSum
    simp only [List.map_cons, List.sum_cons]
    have h1 : sampleWeight s e s = 0 := by
      unfold sampleWeight
      rw [sub_self, zero_div]
    have h2 : 0 < sampleWeight s e (s + iv) := by
      unfold sampleWeight
      exact div_pos (by linarith) (by linarith)
    have h3 : 0 ≤ ((visitedFrom cap e iv (s + iv + iv)).map (sampleWeight s e)).sum := by
      apply List.sum_nonneg
      intro x hx
      obtain ⟨u, hu, rfl⟩ := List.mem_map.mp hx
      have hub := visitedFrom_bounds cap e iv (s + iv + iv) u hu
      unfold sampleWeight
      exact div_nonneg (by linarith [hub.1]) (by linarith)
    linarith
  have hwne : weightSum s e (visitedFrom cap e iv s) ≠ 0 := ne_of_gt hwpos
  constructor
  · rw [process_video_segments_weigth_eq_score cap modelAd s e iv hne]
    unfold weightedScore
    rw [if_neg hwne]
    have had : adWeightSum cap modelAd s e (visitedFrom cap e iv s) =
        weightSum s e (visitedFrom cap e iv s) := by
      unfold adWeightSum weightSum
      rw [List.filter_eq_self.mpr]
      intro u hu
      have hus : (cap u).isSome := by
        unfold visitedFrom at hu
        simpa using List.mem_takeWhile_imp hu
      obtain ⟨fu, hfu⟩ := Option.isSome_iff_exists.mp hus
      simp [hfu, hAd fu]
    rw [had, div_self hwne]
    norm_num
  · rw [process_video_segments_weigth_eq_score cap modelCo s e iv hne]
    unfold weightedScore
    rw [if_neg hwne]
    have hco : adWeightSum cap modelCo s e (visitedFrom cap e iv s) = 0 := by
      unfold adWeightSum
      rw [List.filter_eq_nil_iff.mpr]
      · rfl
      · intro u hu
        have hus : (cap u).isSome := by
          unfold visitedFrom at hu
          simpa using List.mem_takeWhile_imp hu
        obtain ⟨fu, hfu⟩ := Option.isSome_iff_exists.mp hus
        simp [hfu, hCo fu]
    rw [hco, zero_div, mul_zero]

/-- C4 witness: a fully readable scene `[0, 1]` under an all-Ad model scores
exactly 100 and under an all-Content model exactly 0. -/
theorem C4_amended_witness :
    process_video_segments_weigth (fun _ : ℚ => some ()) (fun _ : Unit => ((1 : ℚ), (0 : ℚ)))
      0 1 (1 / 2) = .ok 100 ∧
    process_video_segments_weigth (fun _ : ℚ => some ()) (fun _ : Unit => ((0 : ℚ), (1 : ℚ)))
      0 1 (1 / 2) = .ok 0 :=
  C4_amended (fun _ : ℚ => some ()) (fun _ : Unit => ((1 : ℚ), (0 : ℚ)))
    (fun _ : Unit => ((0 : ℚ), (1 : ℚ))) 0 1 (1 / 2) (by norm_num) (by norm_num)
    (fun f => by norm_num [classify_frame]) (fun f => by norm_num [classify_frame])
    rfl rfl (by norm_num)

/-- C5: with the default 0.5 s interval, sampling visits exactly the
timestamps `start, start + 0.5, start + 1.0, ...` not exceeding the range
end; the unweighted score is computed from the prefix of samples obtained
before the first failed read; and a scene truncated early by end-of-stream
still yields a weighted score of the gathered samples, never an error. -/
theorem C5_sampling_schedule {F : Type} (cap : ℚ → Option F) (model : F → ℚ × ℚ) (s e : ℚ) :
    (∀ x : ℚ, x ∈ gridTimes e (1 / 2) s ↔ ∃ k : ℕ, x = s + k * (1 / 2) ∧ x ≤ e) ∧
    process_video_segments cap model s e (1 / 2) =
      unweightedScore (sampleLabels cap model (visitedFrom cap e (1 / 2) s)) ∧
    ((visitedFrom cap e (1 / 2) s).length < (gridTimes e (1 / 2) s).length →
      process_video_segments_weigth cap model s e (1 / 2) =
        .ok (weightedScore cap model s e (visitedFrom cap e (1 / 2) s))) := by
  refine ⟨fun x => mem_gridTimes e (1 / 2) (by norm_num) s x,
    process_video_segments_eq_score cap model s e (1 / 2), ?_⟩
  intro htrunc
  rcases eq_or_ne (e - s) 0 with heq | hne
  · have hes : e = s := sub_eq_zero.mp heq
    subst hes
    have hgrid : gridTimes e (1 / 2) e = [e] := by
      rw [gridTimes, dif_pos ⟨by norm_num, le_refl e⟩, gridTimes,
        dif_neg (by rintro ⟨hx, hc⟩; linarith)]
    rw [hgrid] at htrunc
    have hvis : visitedFrom cap e (1 / 2) e = [] := by
      rcases hcs : cap e with _ | f
      · exact visitedFrom_nil_none cap e (1 / 2) e ⟨by norm_num, le_refl e⟩ hcs
      · exfalso
        rw [visitedFrom_cons cap e (1 / 2) e ⟨by norm_num, le_refl e⟩ hcs,
          visitedFrom_nil_stop cap e (1 / 2) (e + 1 / 2)
            (by rintro ⟨hx, hc⟩; linarith)] at htrunc
        simp at htrunc
    rw [hvis]
    unfold process_video_segments_weigth
    rw [process_video_segments_weigth_go_degenerate cap model e e (1 / 2) (sub_self e) e 0 0,
      if_pos hvis]
    simp [weightedScore, weightSum, adWeightSum]
  · exact process_video_segments_weigth_eq_score cap model s e (1 / 2) hne

/-- C5 witness: a source at end-of-stream from the very first read on the
degenerate-at-best schedule `[0, 0]` is scored 0.0 without error. -/
theorem C5_sampling_schedule_witness :
    process_video_segments_weigth (fun _ : ℚ => (none : Option Unit))
        (fun _ : Unit => ((1 : ℚ), (0 : ℚ))) 0 0 (1 / 2) =
      .ok (weightedScore (fun _ : ℚ => (none : Option Unit))
        (fun _ : Unit => ((1 : ℚ), (0 : ℚ))) 0 0
        (visitedFrom (fun _ : ℚ => (none : Option Unit)) 0 (1 / 2) 0)) := by
  apply (C5_sampling_schedule (fun _ : ℚ => (none : Option Unit))
    (fun _ : Unit => ((1 : ℚ), (0 : ℚ))) 0 0).2.2
  rw [visitedFrom_nil_none (fun _ : ℚ => (none : Option Unit)) 0 (1 / 2) 0
    ⟨by norm_num, le_refl 0⟩ rfl]
  rw [show gridTimes 0 (1 / 2) 0 = [0] from by
    rw [gridTimes, dif_pos ⟨by norm_num, le_refl (0 : ℚ)⟩, gridTimes,
      dif_neg (by rintro ⟨hx, hc⟩; norm_num at hc)]]
  norm_num

/-- C6: for pairwise-distinct scenes, the accumulated score map of the
parallel scene processing (one singleton future per scene, dicts merged)
equals the single-pass score dict, has exactly one entry per input scene
keyed by its `(start, end)` pair, and lookups recover exactly one score per
scene in the original scene-list order. -/
theorem C6_score_map {F : Type} (cap : ℚ → Option F) (model : F → ℚ × ℚ)
    (scenes : List (ℚ × ℚ)) (hnd : scenes.Nodup) :
    analyze_video_preds cap model scenes =
      detect_ad_scenes_from_segments_and_get_all_results cap model scenes ∧
    (analyze_video_preds cap model scenes).map Prod.fst = scenes ∧
    (∀ sc ∈ scenes, dict_lookup (analyze_video_preds cap model scenes) sc =
      some (process_video_segments_after_ cap model sc.1 sc.2 (1 / 2))) ∧
    scenes.map (fun sc => dict_lookup (analyze_video_preds cap model scenes) sc) =
      scenes.map (fun sc =>
        some (process_video_segments_after_ cap model sc.1 sc.2 (1 / 2))) := by
  have hmap : analyze_video_preds cap model scenes =
      scenes.map (fun sc => (sc, process_video_segments_after_ cap model sc.1 sc.2 (1 / 2))) := by
    rw [analyze_video_preds_eq]
    unfold detect_ad_scenes_from_segments_and_get_all_results
    have hfold := foldl_dict_update_eq_map
      (fun sc : ℚ × ℚ => process_video_segments_after_ cap model sc.1 sc.2 (1 / 2))
      scenes [] hnd (by intro a _ p hp; cases hp)
    simpa using hfold
  refine ⟨analyze_video_preds_eq cap model scenes, ?_, ?_, ?_⟩
  · rw [hmap, List.map_map]
    rw [show (Prod.fst ∘ fun sc : ℚ × ℚ =>
        (sc, process_video_segments_after_ cap model sc.1 sc.2 (1 / 2))) = id from rfl]
    exact List.map_id scenes
  · intro sc hsc
    rw [hmap]
    exact dict_lookup_map _ scenes hnd sc hsc
  · apply List.map_congr_left
    intro sc hsc
    rw [hmap]
    exact dict_lookup_map _ scenes hnd sc hsc

/-- C6 witness: two distinct scenes produce a two-entry map whose keys are
the scenes in order. -/
theorem C6_score_map_witness :
    (analyze_video_preds (fun _ : ℚ => (none : Option Unit))
      (fun _ : Unit => ((1 : ℚ), (0 : ℚ)))
      [((0 : ℚ), (1 : ℚ)), ((2 : ℚ), (3 : ℚ))]).map Prod.fst =
      [((0 : ℚ), (1 : ℚ)), ((2 : ℚ), (3 : ℚ))] :=
  (C6_score_map (fun _ : ℚ => (none : Option Unit)) (fun _ : Unit => ((1 : ℚ), (0 : ℚ)))
    [((0 : ℚ), (1 : ℚ)), ((2 : ℚ), (3 : ℚ))] (by decide)).2.1

/-- C7: `classify_frame` returns the index of the maximum entry of the
model's 2-class output (index 0 on ties, matching `torch.max`), its result
is always 0 or 1, and the scoring loop counts a sample as an Ad frame
exactly when that index equals 0. -/
theorem C7_classifier_argmax {F : Type} (model : F → ℚ × ℚ) (f : F) (cap : ℚ → Option F)
    (e iv t : ℚ) (tf af fc : ℕ) (hiv : 0 < iv) (ht : t ≤ e) (hread : cap t = some f) :
    (classify_frame model f = 0 ∨ classify_frame model f = 1) ∧
    ((if classify_frame model f = 0 then (model f).1 else (model f).2) =
      max (model f).1 (model f).2) ∧
    (classify_frame model f = 0 ↔ (model f).2 ≤ (model f).1) ∧
    process_video_segments.go cap model e iv t tf af fc =
      process_video_segments.go cap model e iv (t + iv) (tf + 1)
        (if classify_frame model f = 0 then af + 1 else af) (fc + 1) := by
  refine ⟨?_, ?_, ?_, ?_⟩
  · unfold classify_frame
    by_cases hc : (model f).2 > (model f).1
    · right
      rw [if_pos hc]
    · left
      rw [if_neg hc]
  · unfold classify_frame
    by_cases hc : (model f).2 > (model f).1
    · rw [if_pos hc, if_neg (by norm_num)]
      exact (max_eq_right (le_of_lt hc)).symm
    · rw [if_neg hc, if_pos rfl]
      exact (max_eq_left (not_lt.mp hc)).symm
  · unfold classify_frame
    constructor
    · intro h0
      by_contra hlt
      push_neg at hlt
      rw [if_pos hlt] at h0
      exact one_ne_zero h0
    · intro hle
      rw [if_neg (not_lt.mpr hle)]
  · rw [process_video_segments.go, dif_pos ⟨hiv, ht⟩, hread]

/-- C7 witness: a frame with output scores `(3, 2)` at timestamp 0 of the
range `[0, 1]`. -/
theorem C7_classifier_argmax_witness :
    (classify_frame (fun _ : Unit => ((3 : ℚ), (2 : ℚ))) () = 0 ∨
      classify_frame (fun _ : Unit => ((3 : ℚ), (2 : ℚ))) () = 1) ∧
    ((if classify_frame (fun _ : Unit => ((3 : ℚ), (2 : ℚ))) () = 0 then
        ((fun _ : Unit => ((3 : ℚ), (2 : ℚ))) ()).1
      else ((fun _ : Unit => ((3 : ℚ), (2 : ℚ))) ()).2) =
      max ((fun _ : Unit => ((3 : ℚ), (2 : ℚ))) ()).1
        ((fun _ : Unit => ((3 : ℚ), (2 : ℚ))) ()).2) ∧
    (classify_frame (fun _ : Unit => ((3 : ℚ), (2 : ℚ))) () = 0 ↔
      ((fun _ : Unit => ((3 : ℚ), (2 : ℚ))) ()).2 ≤
        ((fun _ : Unit => ((3 : ℚ), (2 : ℚ))) ()).1) ∧
    process_video_segments.go (fun _ : ℚ => some ()) (fun _ : Unit => ((3 : ℚ), (2 : ℚ)))
        1 (1 / 2) 0 0 0 0 =
      process_video_segments.go (fun _ : ℚ => some ()) (fun _ : Unit => ((3 : ℚ), (2 : ℚ)))
        1 (1 / 2) (0 + 1 / 2) (0 + 1)
        (if classify_frame (fun _ : Unit => ((3 : ℚ), (2 : ℚ))) () = 0 then 0 + 1 else 0)
        (0 + 1) :=
  C7_classifier_argmax (fun _ : Unit => ((3 : ℚ), (2 : ℚ))) () (fun _ : ℚ => some ())
    1 (1 / 2) 0 0 0 0 (by norm_num) (by norm_num) rfl

/-- C8: for a model name absent from `AVAILABLE_MODELS` (and not preloaded),
`load_model` raises an uncaught `AttributeError` while building the zip
path from the `None` value of `model_path`, instead of returning the
handled failure value `None`. -/
theorem C8_unknown_model_uncaught_exception :
    load_model (⟨[], (), fun _ _ => none⟩ : ModelEnv Unit) unknownModelName =
      .error .attributeError ∧
    dict_lookup AVAILABLE_MODELS unknownModelName = none := by
  constructor
  · rfl
  · rfl

/-- C9: `process_video_segments` and `process_video_segments_after_` are
extensionally equal: for every capture, model, range and interval they
return the same score. -/
theorem C9_scoring_variants_equal {F : Type} (cap : ℚ → Option F) (model : F → ℚ × ℚ)
    (s e iv : ℚ) :
    process_video_segments cap model s e iv =
      process_video_segments_after_ cap model s e iv := by
  rw [process_video_segments_eq_score, process_video_segments_after_eq_score]

/-- C10: on a range with `start < end`, the weighted score does not depend
on the frame delivered at the timestamp `start` (its weight is
`(start - start)/(end - start) = 0`): two captures that agree everywhere
except at `start`, both delivering a frame there, give the same result. -/
theorem C10_start_sample_label_irrelevant {F : Type} (cap1 cap2 : ℚ → Option F)
    (model : F → ℚ × ℚ) (s e : ℚ) (hse : s < e)
    (hagree : ∀ t : ℚ, t ≠ s → cap1 t = cap2 t)
    (h1 : (cap1 s).isSome) (h2 : (cap2 s).isSome) :
    process_video_segments_weigth cap1 model s e (1 / 2) =
      process_video_segments_weigth cap2 model s e (1 / 2) := by
  obtain ⟨f1, hf1⟩ := Option.isSome_iff_exists.mp h1
  obtain ⟨f2, hf2⟩ := Option.isSome_iff_exists.mp h2
  have hne : ¬(e - s = 0) := sub_ne_zero.mpr (Ne.symm (ne_of_lt hse))
  unfold process_video_segments_weigth
  have hstep : process_video_segments_weigth.go cap1 model s e (1 / 2) s 0 0 =
      process_video_segments_weigth.go cap2 model s e (1 / 2) s 0 0 := by
    rw [process_video_segments_weigth.go, dif_pos ⟨by norm_num, le_of_lt hse⟩, hf1]
    rw [process_video_segments_weigth.go, dif_pos ⟨by norm_num, le_of_lt hse⟩, hf2]
    dsimp only
    rw [if_neg hne, if_neg hne]
    have hw : (s - s) / (e - s) = 0 := by rw [sub_self, zero_div]
    rw [hw]
    simp only [add_zero]
    rw [ite_self, ite_self]
    exact process_video_segments_weigth_go_congr cap1 cap2 model s e (1 / 2) (s + 1 / 2) 0 0
      (fun u hu => hagree u (by intro hus; rw [hus] at hu; linarith))
  rw [hstep]

/-- C10 witness: two captures that differ only in the frame at `t = 0`
(classified Ad in one run, Content in the other) give equal weighted scores
on the range `[0, 1]`. -/
theorem C10_start_sample_label_irrelevant_witness :
    process_video_segments_weigth
        (fun t : ℚ => if t = 0 then some true else if t ≤ 1 then some false else none)
        (fun b : Bool => if b then ((1 : ℚ), (0 : ℚ)) else ((0 : ℚ), (1 : ℚ))) 0 1 (1 / 2) =
      process_video_segments_weigth
        (fun t : ℚ => if t = 0 then some false else if t ≤ 1 then some false else none)
        (fun b : Bool => if b then ((1 : ℚ), (0 : ℚ)) else ((0 : ℚ), (1 : ℚ))) 0 1 (1 / 2) :=
  C10_start_sample_label_irrelevant
    (fun t : ℚ => if t = 0 then some true else if t ≤ 1 then some false else none)
    (fun t : ℚ => if t = 0 then some false else if t ≤ 1 then some false else none)
    (fun b : Bool => if b then ((1 : ℚ), (0 : ℚ)) else ((0 : ℚ), (1 : ℚ))) 0 1
    (by norm_num) (fun t ht => by simp [ht]) (by simp) (by simp)

end AdDetector
